import Mathlib

/-!
Verification of the Game Session Coordinator of the music-madness project.

The coordinator lives in the canonical backend draft (`src/unnamed/part_000`,
a copy of `backend/index.js` in its latest form); an earlier MVP draft is
`src/backend/index.js`.  This file is a shallow embedding of the handlers the
claims touch:

* JavaScript objects used as string-keyed maps (`game.assignedPlaylists`,
  `game.assignmentHistory`, `game.votes`) become association lists
  `List (String × _)` with insert-or-replace writes (`setKV`).
* `Math.random()`-driven choices are parameters: the shuffled alias order is a
  `List String` argument, and each `candidates[Math.floor(Math.random()*len)]`
  pick is `candidates.get? (pick step % candidates.length)` for an arbitrary
  `pick : Nat → Nat`.  Theorems quantify over these parameters.
* `setTimeout` callbacks become explicit pending-timer counters in a small
  event-trace semantics (`SimState`, `stepEvent`).
* A thrown `Error` surfaces as an explicit error outcome; the statement in
  `advanceAfterRound` that reads the undefined variable `gameCode`
  (part_000 line 351, a `ReferenceError` at runtime) is modelled by the
  `crashed` flag: the mutations before that line persist and the statements
  after it (including the timer that would clear `_advancing`) never run.
-/

namespace MusicMadness

/-! ## JavaScript-object-as-map helpers -/

/-- Insert-or-replace write `obj[k] = v` on a string-keyed JS object,
represented as an association list. -/
def setKV {α : Type} (m : List (String × α)) (k : String) (v : α) : List (String × α) :=
  if m.any (fun p => p.1 == k) then m.map (fun p => if p.1 == k then (k, v) else p)
  else m ++ [(k, v)]

/-- Number of entries of an association list carrying key `k`. -/
def countKey {α : Type} (m : List (String × α)) (k : String) : Nat :=
  (m.filter (fun p => p.1 == k)).length

/-! ## Data model (part_000)

`Song`, `Playlist`, `Player` and the `Game` record mirror the objects built in
`createGame` / `submitPlaylist` (part_000 lines 389-401, 516-524).  The fields
`eliminatedRound`, `eliminatedBy`, `comment` start as `null`, hence `Option`.
The guard fields `_roundLocked` and `_advancing` start absent (`undefined`,
falsy), modelled as `false`. -/

structure Song where
  id : String
  artist : String
  title : String
  link : String
  eliminated : Bool
  eliminatedRound : Option Nat
  eliminatedBy : Option String
  comment : Option String
deriving DecidableEq, Repr

structure SongInfo where
  artist : String
  title : String
  link : String
deriving DecidableEq, Repr

/-- Entry of `playlist.eliminationLog` (part_000 lines 692-697). -/
structure ElimRecord where
  songInfo : SongInfo
  eliminatedRound : Nat
  eliminatedBy : String
  comment : String
deriving DecidableEq, Repr

structure Playlist where
  aliasName : String
  songs : List Song
  eliminationLog : List ElimRecord
deriving DecidableEq, Repr

structure Player where
  id : String
  aliasName : String
  playlist : Option (List Song)
  hasSubmittedElimination : Bool
deriving DecidableEq, Repr

structure FinalMixEntry where
  playlistIndex : Nat
  originAlias : String
  song : Song
deriving DecidableEq, Repr

/-- A `finalVote` payload: `chosen` is either an object carrying a
`playlistIndex` or a bare song id (part_000 lines 766-770). -/
inductive Chosen where
  | byIndex (playlistIndex : Nat)
  | raw (s : String)
deriving DecidableEq, Repr

structure Game where
  players : List Player
  playlists : List Playlist
  password : String
  gamePhase : String
  assignedPlaylists : List (String × Nat)
  assignmentHistory : List (String × List Nat)
  currentRound : Nat
  maxRounds : Nat
  finalMix : Option (List FinalMixEntry)
  votes : List (String × Chosen)
  roundLocked : Bool
  advancing : Bool
deriving DecidableEq, Repr

/-! ## Identity binder: `getOrUpdatePlayer` (part_000 lines 36-61) -/

/-- Replace the element at index `i` (no-op out of range), used for in-place
mutation of one record of a JS array. -/
def setIn {α : Type} (l : List α) (i : Nat) (f : α → α) : List α :=
  match l.get? i with
  | some a => l.set i (f a)
  | none => l

/-- `getOrUpdatePlayer(game, socket, alias, createIfMissing)`: find the player
by socket id, else by alias (re-linking its socket id), else optionally create
one.  Returns the updated game and the index of the player, `none` when no
player applies.  The source guards `if (alias)` / `if (createIfMissing &&
alias)` test string truthiness, i.e. `alias ≠ ""`. -/
def getOrUpdatePlayer (game : Game) (socketId aliasName : String) (createIfMissing : Bool) :
    Game × Option Nat :=
  match game.players.findIdx? (fun p => p.id == socketId) with
  | some i => (game, some i)
  | none =>
    if aliasName ≠ "" then
      match game.players.findIdx? (fun p => p.aliasName == aliasName) with
      | some i => ({ game with players := setIn game.players i (fun p => { p with id := socketId }) }, some i)
      | none =>
        if createIfMissing then
          ({ game with players := game.players ++ [⟨socketId, aliasName, none, false⟩] },
           some game.players.length)
        else (game, none)
    else (game, none)

/-! ## Assignment scheduler (part_000 lines 68-123 and 131-183)

`assignPlaylistsToPlayers` and `rotateAssignments` contain the token-identical
per-alias loop; `assignLoop` is that loop.  `order` is the result of the
random shuffle `[...aliases].sort(() => Math.random() - 0.5)` (a permutation
of the alias list); `pick step` supplies the random pick at the `step`-th
player, reduced mod the candidate count like
`Math.floor(Math.random() * candidates.length)`. -/

/-- `game.playlists[idx].alias`; indices drawn from the pool are always in
range, the default is never reached on the source's inputs. -/
def ownerAt (pls : List Playlist) (idx : Nat) : String :=
  ((pls.get? idx).map Playlist.aliasName).getD ""

/-- The first candidate tier (lines 90-93): pool indices whose playlist is not
the player's own and not in the player's history. -/
def tier1 (pls : List Playlist) (history : List Nat) (aliasName : String)
    (unassigned : List Nat) : List Nat :=
  unassigned.filter (fun idx => (ownerAt pls idx != aliasName) && !(history.contains idx))

/-- The relaxed tier (lines 96-98): not-own only, repeats allowed. -/
def tier2 (pls : List Playlist) (aliasName : String) (unassigned : List Nat) : List Nat :=
  unassigned.filter (fun idx => ownerAt pls idx != aliasName)

/-- The `candidates` variable after lines 90-98: tier 1, relaxed to tier 2
when tier 1 is empty. -/
def preCandidates (pls : List Playlist) (history : List Nat) (aliasName : String)
    (unassigned : List Nat) : List Nat :=
  if (tier1 pls history aliasName unassigned).isEmpty then tier2 pls aliasName unassigned
  else tier1 pls history aliasName unassigned

/-- True exactly when the loop body reaches the `console.warn` fallback that
sets `candidates = unassigned` (lines 100-103 / 161-164). -/
def fallbackFor (pls : List Playlist) (history : List Nat) (aliasName : String)
    (unassigned : List Nat) : Bool :=
  (preCandidates pls history aliasName unassigned).isEmpty

/-- The final `candidates` value of the loop body (lines 90-103): the three
tiers, falling back to the whole remaining pool when both filters are empty. -/
def candidatesFor (pls : List Playlist) (history : List Nat) (aliasName : String)
    (unassigned : List Nat) : List Nat :=
  if (preCandidates pls history aliasName unassigned).isEmpty then unassigned
  else preCandidates pls history aliasName unassigned

/-- The per-alias loop shared by `assignPlaylistsToPlayers` and
`rotateAssignments`: pick from the candidate set, remove the pick from the
pool (`indexOf` + `splice` = erase first occurrence), append it to the alias's
history.  Returns (assignment pairs, updated history, fallback-reached flag).
When the pool is empty the JS code would store `undefined`; the model records
no entry (this situation is unreachable while players ≤ playlists). -/
def assignLoop (pls : List Playlist) (pick : Nat → Nat) :
    List String → List Nat → List (String × List Nat) → Nat →
    List (String × Nat) × List (String × List Nat) × Bool
  | [], _, hist, _ => ([], hist, false)
  | a :: rest, unassigned, hist, step =>
    let history := (List.lookup a hist).getD []
    let cands := candidatesFor pls history a unassigned
    let fb := fallbackFor pls history a unassigned
    match cands.get? (pick step % cands.length) with
    | none =>
      let r := assignLoop pls pick rest unassigned hist (step + 1)
      (r.1, r.2.1, r.2.2 || fb)
    | some chosen =>
      let hist' := setKV hist a (history ++ [chosen])
      let r := assignLoop pls pick rest (unassigned.erase chosen) hist' (step + 1)
      ((a, chosen) :: r.1, r.2.1, r.2.2 || fb)

/-- `assignPlaylistsToPlayers(game)` (part_000 lines 68-123): run the loop over
the whole index pool, store the mapping and the extended history on the game,
and return the mapping. -/
def assignPlaylistsToPlayers (game : Game) (order : List String) (pick : Nat → Nat) :
    List (String × Nat) × Game :=
  let r := assignLoop game.playlists pick order (List.range game.playlists.length)
    game.assignmentHistory 0
  (r.1, { game with assignedPlaylists := r.1, assignmentHistory := r.2.1 })

/-- `rotateAssignments(game, gameId)` (part_000 lines 131-183): same loop, the
result stored on the game and broadcast. -/
def rotateAssignments (game : Game) (order : List String) (pick : Nat → Nat) : Game :=
  let r := assignLoop game.playlists pick order (List.range game.playlists.length)
    game.assignmentHistory 0
  { game with assignedPlaylists := r.1, assignmentHistory := r.2.1 }

/-- Whether a scheduler run reached the warned fallback for some player. -/
def assignmentUsedFallback (game : Game) (order : List String) (pick : Nat → Nat) : Bool :=
  (assignLoop game.playlists pick order (List.range game.playlists.length)
    game.assignmentHistory 0).2.2

/-! ## Lifecycle helpers (part_000 lines 191-200) -/

/-- `computeMaxRounds`: `Math.max(0, max(songs per playlist) - 1)`; with `Nat`
subtraction the clamp at 0 is built in, and an empty playlist list gives 0
like `Math.max()` = -Infinity does in the source. -/
def computeMaxRounds (game : Game) : Nat :=
  (game.playlists.map (fun p => p.songs.length)).foldr Nat.max 0 - 1

/-- `allPlaylistsHaveOneRemaining` (lines 198-200). -/
def allPlaylistsHaveOneRemaining (game : Game) : Bool :=
  game.playlists.all (fun pl => (pl.songs.filter (fun s => !s.eliminated)).length == 1)

/-! ## Final mix builder (part_000 lines 238-258) -/

/-- The defensive per-field defaults applied when copying the surviving song
into a final-mix entry (lines 242-251): JS `x || d` replaces an empty string
by the default, `?? null` keeps the optional fields, `comment ?? ''` turns an
absent comment into the empty string. -/
def safeSongOf (idx : Nat) (s : Song) : Song :=
  { id := if s.id = "" then "song_" ++ toString idx else s.id
    artist := if s.artist = "" then "Unknown Artist" else s.artist
    title := if s.title = "" then "Untitled Song" else s.title
    link := s.link
    eliminated := s.eliminated
    eliminatedRound := s.eliminatedRound
    eliminatedBy := s.eliminatedBy
    comment := some (s.comment.getD "") }

/-- `pl.alias || 'Player_' + (idx + 1)` (line 255). -/
def originAliasOf (idx : Nat) (pl : Playlist) : String :=
  if pl.aliasName = "" then "Player_" ++ toString (idx + 1) else pl.aliasName

/-- `playlists.map((pl, idx) => ...).filter(entry => entry.song)` of lines
238-258, written with an explicit running index: the survivor is
`pl.songs.find(s => !s.eliminated) || pl.songs[pl.songs.length - 1]`, and a
playlist with no songs at all produces no entry. -/
def buildFinalMixAux : Nat → List Playlist → List FinalMixEntry
  | _, [] => []
  | idx, pl :: rest =>
    match pl.songs.find? (fun s => !s.eliminated) with
    | some r => ⟨idx, originAliasOf idx pl, safeSongOf idx r⟩ :: buildFinalMixAux (idx + 1) rest
    | none =>
      match pl.songs.getLast? with
      | some r => ⟨idx, originAliasOf idx pl, safeSongOf idx r⟩ :: buildFinalMixAux (idx + 1) rest
      | none => buildFinalMixAux (idx + 1) rest

def buildFinalMix (pls : List Playlist) : List FinalMixEntry :=
  buildFinalMixAux 0 pls

/-- The elimination-log normalization run on phase changes (lines 264-280 and
333-349): entries that already carry `songInfo` are kept; in the typed model
every record carries `songInfo`, so every entry survives the `filter`. -/
def normalizeEliminationLog (pl : Playlist) : Playlist :=
  { pl with eliminationLog := pl.eliminationLog.filterMap (fun e => some e) }

/-! ## Round advancement: `advanceAfterRound` (part_000 lines 202-369) -/

/-- Result of one `advanceAfterRound(game, gameId)` invocation.
`blocked`: the `if (game._advancing) return` guard (lines 222-225) fired.
`crashed`: the next-round branch reached `io.to(gameCode)` (line 351) where
`gameCode` is an undefined variable — a `ReferenceError`; everything mutated
before that line persists, everything after it (including the `setTimeout`
of lines 354-363 that would broadcast and clear `_advancing`) never runs.
`scheduledClear`: the final-mix branch scheduled the `setTimeout` of lines
309-317 whose callback clears `_advancing`. -/
structure AdvResult where
  game : Game
  blocked : Bool
  crashed : Bool
  scheduledClear : Bool
deriving DecidableEq, Repr

/-- The final condition of lines 232-234:
`allPlaylistsHaveOneRemaining(game) || (game.currentRound &&
game.currentRound >= (game.maxRounds || computeMaxRounds(game)))`, with JS
truthiness on the two numbers.  It only reads `playlists`, `currentRound` and
`maxRounds`, which the flag resets preceding it never touch, so it is stated
on the incoming state. -/
def advanceIsFinal (game : Game) : Bool :=
  allPlaylistsHaveOneRemaining game ||
    ((game.currentRound != 0) &&
      decide ((if game.maxRounds ≠ 0 then game.maxRounds else computeMaxRounds game) ≤
        game.currentRound))

/-- `advanceAfterRound` (part_000 lines 202-369), step by step:
lines 210-212 clear `_roundLocked` and the per-player submission flags before
anything else; lines 222-226 take the `_advancing` guard (returning early if
it is already set); line 229 resets the flags again; lines 232-234 decide the
final condition `allPlaylistsHaveOneRemaining(game) || (game.currentRound &&
game.currentRound >= (game.maxRounds || computeMaxRounds(game)))` with JS
truthiness on the two numbers; the final branch (236-319) stores the final
mix, sets the phase, normalizes the logs and schedules the timer that later
clears `_advancing`; the next-round branch (322-369) bumps the round, sets
the phase string, recomputes assignments via the rotation loop, normalizes
the logs, and then crashes on the undefined `gameCode`. -/
def advanceAfterRound (game0 : Game) (order : List String) (pick : Nat → Nat) : AdvResult :=
  let g1 := { game0 with
    roundLocked := false
    players := game0.players.map (fun p => { p with hasSubmittedElimination := false }) }
  if g1.advancing then ⟨g1, true, false, false⟩
  else
    let g2 := { g1 with advancing := true }
    if advanceIsFinal game0 then
      let g3 := { g2 with
        finalMix := some (buildFinalMix g2.playlists)
        gamePhase := "final_mix"
        playlists := g2.playlists.map normalizeEliminationLog }
      -- the defensive rebuild of lines 283-306 recomputes the same value and
      -- only fires when the list is empty, so it leaves the state unchanged
      ⟨g3, false, false, true⟩
    else
      let r' := (if g2.currentRound = 0 then 1 else g2.currentRound) + 1
      let g3 := { g2 with
        currentRound := r'
        gamePhase := "elimination_round_" ++ toString r' }
      let ra := assignLoop g3.playlists pick order (List.range g3.playlists.length)
        g3.assignmentHistory 0
      let g4 := { g3 with
        assignedPlaylists := ra.1
        assignmentHistory := ra.2.1
        playlists := g3.playlists.map normalizeEliminationLog }
      ⟨g4, false, true, false⟩

/-! ## Round barrier: `submitElimination` (part_000 lines 659-734) -/

/-- JS `s.startsWith(pre)`, modelled on the character list so that concrete
states evaluate inside proofs. -/
def strStartsWith (s pre : String) : Bool :=
  pre.data.isPrefixOf s.data

/-- Outcome of a `submitElimination` socket event: a thrown error message
(caught at lines 730-733 and emitted to the caller), success without
scheduling, or success that took the `_roundLocked` guard and scheduled the
deferred `advanceAfterRound` call (lines 709-729). -/
inductive SubmitOutcome where
  | errorOut (msg : String)
  | okSilent
  | okSchedule
deriving DecidableEq, Repr

/-- `submitElimination` (part_000 lines 659-734).  The checks run in source
order; the first failing one throws, and every mutation made before the throw
(only the socket re-link inside `getOrUpdatePlayer`) persists.  On success the
song is marked eliminated in place, a record is appended to the playlist's
`eliminationLog`, the player's flag is set, and if now every player has
submitted and `_roundLocked` is not yet set, the guard is taken and the
delayed advancement is scheduled. -/
def submitElimination (game : Game) (socketId aliasName : String)
    (playlistIndex songIdx : Nat) (comment : String) : Game × SubmitOutcome :=
  if ¬ strStartsWith game.gamePhase "elimination" then
    (game, .errorOut "Not in elimination phase")
  else
    match getOrUpdatePlayer game socketId aliasName false with
    | (g1, none) => (g1, .errorOut ("Player " ++ aliasName ++ " not recognized"))
    | (g1, some pIdx) =>
      if List.lookup aliasName g1.assignedPlaylists ≠ some playlistIndex then
        (g1, .errorOut ("Player " ++ aliasName ++ " not assigned to playlist"))
      else
        match g1.playlists.get? playlistIndex with
        | none => (g1, .errorOut "Playlist missing")
        | some playlist =>
          if playlist.aliasName = aliasName then
            (g1, .errorOut "Player eliminating own playlist")
          else if playlist.songs.length ≤ songIdx then
            (g1, .errorOut "Invalid song index")
          else
            match playlist.songs.get? songIdx with
            | none => (g1, .errorOut "Song not found")
            | some song =>
              if song.eliminated then (g1, .errorOut "Song already eliminated")
              else
                let song' := { song with
                  eliminated := true
                  eliminatedRound := some g1.currentRound
                  eliminatedBy := some aliasName
                  comment := some comment }
                let playlist' := { playlist with
                  songs := playlist.songs.set songIdx song'
                  eliminationLog := playlist.eliminationLog ++
                    [⟨⟨song.artist, song.title, song.link⟩, g1.currentRound, aliasName, comment⟩] }
                let g2 := { g1 with
                  playlists := g1.playlists.set playlistIndex playlist'
                  players := setIn g1.players pIdx
                    (fun p => { p with hasSubmittedElimination := true }) }
                if g2.players.all (fun p => p.hasSubmittedElimination) then
                  if g2.roundLocked then (g2, .okSilent)
                  else ({ g2 with roundLocked := true }, .okSchedule)
                else (g2, .okSilent)

/-! ## Final vote: `finalVote` (part_000 lines 748-806) -/

/-- `finalVote` (part_000 lines 748-806).  `game.votes[alias] = chosen` is the
insert-or-replace write on the votes object.  When the vote count reaches the
player count the tally and `finalResults` broadcast run (lines 765-801; pure
reads of `votes` and `finalMix`) and the phase is set to `finished`
(line 804); no field other than `gamePhase` changes in that branch. -/
def finalVote (game : Game) (socketId aliasName : String) (chosen : Chosen) :
    Game × Option String :=
  if game.gamePhase ≠ "final_mix" then (game, some "Not in final mix")
  else
    match getOrUpdatePlayer game socketId aliasName false with
    | (g1, none) => (g1, some "Player not found")
    | (g1, some _) =>
      let g2 := { g1 with votes := setKV g1.votes aliasName chosen }
      if g2.votes.length = g2.players.length then
        ({ g2 with gamePhase := "finished" }, none)
      else (g2, none)

/-! ## Join: `joinGame` (part_000 lines 442-484, identical in part_003
lines 760-803) -/

/-- `joinGame` after the game has been found in the registry: the password
check `if (game.password && game.password !== password)`, then the player
record is pushed (line 463-464, with no `hasSubmittedElimination` field —
`undefined`, falsy), and only afterwards the alias-conflict check runs
(line 469); a conflict emits the error but the pushed record stays.  Returns
the game, the error message if any, and whether `playerJoined` was emitted. -/
def joinGame (game : Game) (socketId aliasName password : String) :
    Game × Option String × Bool :=
  if game.password ≠ "" ∧ game.password ≠ password then
    (game, some "Invalid password", false)
  else
    let g1 := { game with players := game.players ++ [⟨socketId, aliasName, none, false⟩] }
    if g1.players.any (fun p => p.aliasName == aliasName && p.id != socketId) then
      (g1, some "Alias already taken", false)
    else (g1, none, true)

/-! ## Event-trace semantics

The transport is single-threaded and event-driven: each socket event runs to
completion, and `setTimeout` callbacks run later as their own events.  A
`SimState` holds the session plus the pending timers and a few observables;
`stepEvent` applies one event.  The 500ms callback of lines 718-728 re-checks
`games[gameId]?.currentRound === game.currentRound`; its closure holds the
very object the registry holds (sessions are never removed from `games`), so
both sides read the same live field and the check always passes — the model
therefore proceeds straight into `advanceAfterRound`. -/

structure SimState where
  game : Game
  pendingAdvance : Nat
  pendingClear : Nat
  /-- rounds in which a completed barrier took the lock and scheduled the
  deferred advancement (lines 709-728). -/
  barrierCompletions : List Nat
  /-- rounds from which an `advanceAfterRound` call actually passed the
  `_advancing` guard and committed a transition. -/
  advancedFrom : List Nat
  /-- number of `ReferenceError` crashes on the undefined `gameCode`. -/
  crashes : Nat
deriving DecidableEq, Repr

inductive Event where
  | submitElim (socketId aliasName : String) (playlistIndex songIdx : Nat) (comment : String)
  | fireAdvanceTimer
  | fireClearTimer
deriving DecidableEq, Repr

def stepEvent (order : List String) (pick : Nat → Nat) (st : SimState) : Event → SimState
  | .submitElim sid a pi si c =>
    let r := submitElimination st.game sid a pi si c
    match r.2 with
    | .okSchedule => { st with
        game := r.1
        pendingAdvance := st.pendingAdvance + 1
        barrierCompletions := st.barrierCompletions ++ [r.1.currentRound] }
    | _ => { st with game := r.1 }
  | .fireAdvanceTimer =>
    if st.pendingAdvance = 0 then st
    else
      let r0 := st.game.currentRound
      let res := advanceAfterRound st.game order pick
      { game := res.game
        pendingAdvance := st.pendingAdvance - 1
        pendingClear := st.pendingClear + (if res.scheduledClear then 1 else 0)
        barrierCompletions := st.barrierCompletions
        advancedFrom := st.advancedFrom ++ (if res.blocked then [] else [r0])
        crashes := st.crashes + (if res.crashed then 1 else 0) }
  | .fireClearTimer =>
    if st.pendingClear = 0 then st
    else { st with
      game := { st.game with advancing := false }
      pendingClear := st.pendingClear - 1 }

def runTrace (order : List String) (pick : Nat → Nat) (st : SimState) (evs : List Event) :
    SimState :=
  evs.foldl (stepEvent order pick) st

/-! ## The MVP draft (`src/backend/index.js`)

The early draft stores playlists as `{ alias, songs, eliminations }` with the
raw client songs, and `game.votes` as an array.  Its `eliminateSong` handler
(lines 146-153) splices the song out of the array, its `submitElimination`
handler (lines 158-198) filters it out by id, and its `finalVote` handler
(lines 242-247) pushes every vote. -/

structure BSong where
  id : String
  title : String
deriving DecidableEq, Repr

structure BElim where
  songIndex : Nat
  aliasName : String
  commentary : String
deriving DecidableEq, Repr

structure BPlaylist where
  aliasName : String
  songs : List BSong
  eliminations : List BElim
deriving DecidableEq, Repr

structure BVote where
  aliasName : String
  topTwo : String
deriving DecidableEq, Repr

structure BGame where
  playlists : List BPlaylist
  votes : List BVote
deriving DecidableEq, Repr

/-- `eliminateSong` (backend/index.js lines 146-153): if the playlist exists,
push an elimination record and `songs.splice(songIndex, 1)` — the song is
removed from the sequence. -/
def backendEliminateSong (game : BGame) (aliasName : String) (playlistIndex songIndex : Nat)
    (commentary : String) : BGame :=
  match game.playlists.get? playlistIndex with
  | none => game
  | some pl => { game with
      playlists := game.playlists.set playlistIndex
        { pl with
          eliminations := pl.eliminations ++ [⟨songIndex, aliasName, commentary⟩]
          songs := pl.songs.eraseIdx songIndex } }

/-- `finalVote` (backend/index.js lines 242-247):
`game.votes.push({ alias, topTwo })` — append, never overwrite. -/
def backendFinalVote (game : BGame) (aliasName topTwo : String) : BGame :=
  { game with votes := game.votes ++ [⟨aliasName, topTwo⟩] }

/-! ## Concrete sessions used as inputs -/

def mkSong (i t : String) : Song :=
  ⟨i, "", t, "", false, none, none, none⟩

def elimSong (i t : String) (r : Nat) (by_ : String) : Song :=
  ⟨i, "", t, "", true, some r, some by_, some ""⟩

/-- A two-player session in `elimination_round_1`, three songs per playlist
(`maxRounds = 2`), assignments A→1, B→0, exactly as `submitPlaylist`
(lines 531-546) leaves it. -/
def game0 : Game :=
  { players := [⟨"s1", "A", none, false⟩, ⟨"s2", "B", none, false⟩]
    playlists :=
      [⟨"A", [mkSong "a1" "a1", mkSong "a2" "a2", mkSong "a3" "a3"], []⟩,
       ⟨"B", [mkSong "b1" "b1", mkSong "b2" "b2", mkSong "b3" "b3"], []⟩]
    password := ""
    gamePhase := "elimination_round_1"
    assignedPlaylists := [("A", 1), ("B", 0)]
    assignmentHistory := [("A", [1]), ("B", [0])]
    currentRound := 1
    maxRounds := 2
    finalMix := none
    votes := []
    roundLocked := false
    advancing := false }

/-- Both players submit round 1, the deferred advancement fires (crashing on
`gameCode` after committing round 2), both players submit round 2, and the
second deferred advancement fires. -/
def traceC1 : List Event :=
  [.submitElim "s1" "A" 1 0 "", .submitElim "s2" "B" 0 0 "", .fireAdvanceTimer,
   .submitElim "s1" "A" 1 1 "", .submitElim "s2" "B" 0 1 "", .fireAdvanceTimer]

def simInit : SimState :=
  ⟨game0, 0, 0, [], [], 0⟩

/-- A three-player session about to receive its round-1 assignment. -/
def gameCx : Game :=
  { players := [⟨"s1", "A", none, false⟩, ⟨"s2", "B", none, false⟩, ⟨"s3", "C", none, false⟩]
    playlists :=
      [⟨"A", [mkSong "a1" "a1"], []⟩, ⟨"B", [mkSong "b1" "b1"], []⟩,
       ⟨"C", [mkSong "c1" "c1"], []⟩]
    password := ""
    gamePhase := "submission"
    assignedPlaylists := []
    assignmentHistory := []
    currentRound := 0
    maxRounds := 0
    finalMix := none
    votes := []
    roundLocked := false
    advancing := false }

/-- A two-player session about to receive its round-1 assignment. -/
def gameCx2 : Game :=
  { players := [⟨"s1", "A", none, false⟩, ⟨"s2", "B", none, false⟩]
    playlists := [⟨"A", [mkSong "a1" "a1"], []⟩, ⟨"B", [mkSong "b1" "b1"], []⟩]
    password := ""
    gamePhase := "submission"
    assignedPlaylists := []
    assignmentHistory := []
    currentRound := 0
    maxRounds := 0
    finalMix := none
    votes := []
    roundLocked := false
    advancing := false }

/-- A completed round 1 of a session whose playlists had 2 and 1 songs
(`maxRounds = 1`): A eliminated B's only song, B eliminated A's first song.
Playlist 1 now has no non-eliminated song. -/
def gameC6 : Game :=
  { players := [⟨"s1", "A", none, true⟩, ⟨"s2", "B", none, true⟩]
    playlists :=
      [⟨"A", [elimSong "a1" "a1" 1 "B", mkSong "a2" "a2"], []⟩,
       ⟨"B", [elimSong "b1" "b1" 1 "A"], []⟩]
    password := ""
    gamePhase := "elimination_round_1"
    assignedPlaylists := [("A", 1), ("B", 0)]
    assignmentHistory := [("A", [1]), ("B", [0])]
    currentRound := 1
    maxRounds := 1
    finalMix := none
    votes := []
    roundLocked := true
    advancing := false }

/-- A two-player session in the final-mix phase with one vote already cast. -/
def gameV : Game :=
  { players := [⟨"s1", "A", none, false⟩, ⟨"s2", "B", none, false⟩]
    playlists :=
      [⟨"A", [elimSong "a1" "a1" 1 "B", mkSong "a2" "a2"], []⟩,
       ⟨"B", [elimSong "b1" "b1" 1 "A", mkSong "b2" "b2"], []⟩]
    password := ""
    gamePhase := "final_mix"
    assignedPlaylists := [("A", 1), ("B", 0)]
    assignmentHistory := [("A", [1]), ("B", [0])]
    currentRound := 1
    maxRounds := 1
    finalMix := some (buildFinalMix
      [⟨"A", [elimSong "a1" "a1" 1 "B", mkSong "a2" "a2"], []⟩,
       ⟨"B", [elimSong "b1" "b1" 1 "A", mkSong "b2" "b2"], []⟩])
    votes := [("B", Chosen.byIndex 0)]
    roundLocked := false
    advancing := false }

/-- A one-playlist state of the MVP draft, two songs. -/
def bGame8 : BGame :=
  ⟨[⟨"A", [⟨"x", "x"⟩, ⟨"y", "y"⟩], []⟩], []⟩

/-! ## Helper lemmas on the JS-object writes -/

theorem lookup_map_replace {α : Type} (k : String) (v : α) :
    ∀ m : List (String × α), m.any (fun p => p.1 == k) = true →
      List.lookup k (m.map (fun p => if p.1 == k then (k, v) else p)) = some v
  | [], h => by simp at h
  | p :: m, h => by
    rcases p with ⟨a, b⟩
    cases hpk : (a == k) with
    | true =>
      have hp : a = k := by simpa using hpk
      simp [hp, List.lookup_cons]
    | false =>
      have hp : ¬ a = k := beq_eq_false_iff_ne.mp hpk
      have hk : (k == a) = false := beq_eq_false_iff_ne.mpr (Ne.symm hp)
      simp only [List.any_cons, hpk, Bool.false_or] at h
      simpa [hp, List.lookup_cons, hk] using lookup_map_replace k v m h

theorem lookup_append_absent {α : Type} (k : String) (v : α) :
    ∀ m : List (String × α), m.any (fun p => p.1 == k) = false →
      List.lookup k (m ++ [(k, v)]) = some v
  | [], _ => by simp [List.lookup_cons]
  | p :: m, h => by
    rcases p with ⟨a, b⟩
    simp only [List.any_cons, Bool.or_eq_false_iff] at h
    have hk : (k == a) = false :=
      beq_eq_false_iff_ne.mpr (Ne.symm (beq_eq_false_iff_ne.mp h.1))
    simpa [List.lookup_cons, hk] using lookup_append_absent k v m h.2

theorem lookup_setKV_self {α : Type} (m : List (String × α)) (k : String) (v : α) :
    List.lookup k (setKV m k v) = some v := by
  unfold setKV
  split
  next h => exact lookup_map_replace k v m h
  next h =>
    exact lookup_append_absent k v m (Bool.eq_false_iff.mpr h)

theorem lookup_map_replace_ne {α : Type} (k b : String) (v : α) (hb : b ≠ k) :
    ∀ m : List (String × α),
      List.lookup b (m.map (fun p => if p.1 == k then (k, v) else p)) = List.lookup b m
  | [] => by simp
  | p :: m => by
    have ih := lookup_map_replace_ne k b v hb m
    have hbk : (b == k) = false := beq_eq_false_iff_ne.mpr hb
    rcases p with ⟨a, c⟩
    by_cases ha : a = k
    · have hba : (b == a) = false := beq_eq_false_iff_ne.mpr (ha ▸ hb)
      simpa [ha, List.lookup_cons, hbk, hba] using ih
    · cases hba : (b == a)
      · simpa [ha, List.lookup_cons, hba] using ih
      · simp [ha, List.lookup_cons, hba]

theorem lookup_append_ne {α : Type} (k b : String) (v : α) (hb : b ≠ k) :
    ∀ m : List (String × α), List.lookup b (m ++ [(k, v)]) = List.lookup b m
  | [] => by simp [List.lookup_cons, beq_eq_false_iff_ne.mpr hb]
  | p :: m => by
    rcases p with ⟨a, c⟩
    cases hba : (b == a) <;>
      simp [List.lookup_cons, hba, lookup_append_ne k b v hb m]

theorem lookup_setKV_ne {α : Type} (m : List (String × α)) (k b : String) (v : α)
    (hb : b ≠ k) : List.lookup b (setKV m k v) = List.lookup b m := by
  unfold setKV
  split
  · exact lookup_map_replace_ne k b v hb m
  · exact lookup_append_ne k b v hb m

theorem countKey_of_not_any {α : Type} (k : String) :
    ∀ m : List (String × α), m.any (fun p => p.1 == k) = false → countKey m k = 0
  | [], _ => rfl
  | p :: m, h => by
    simp only [List.any_cons, Bool.or_eq_false_iff] at h
    simpa [countKey, List.filter_cons, h.1] using countKey_of_not_any k m h.2

theorem countKey_map_replace {α : Type} (k : String) (v : α) :
    ∀ m : List (String × α),
      countKey (m.map (fun p => if p.1 == k then (k, v) else p)) k = countKey m k
  | [] => rfl
  | p :: m => by
    have ih := countKey_map_replace k v m
    rcases p with ⟨a, c⟩
    by_cases hp : a = k
    · simpa [countKey, List.filter_cons, hp] using ih
    · simpa [countKey, List.filter_cons, hp] using ih

theorem countKey_eq_one_of_present {α : Type} (k : String) :
    ∀ m : List (String × α), (m.map Prod.fst).Nodup →
      m.any (fun p => p.1 == k) = true → countKey m k = 1
  | [], _, h => by simp at h
  | p :: m, hnd, h => by
    simp only [List.map_cons, List.nodup_cons] at hnd
    by_cases hp : p.1 = k
    · have hrest : m.any (fun q => q.1 == k) = false := by
        rw [← Bool.not_eq_true, List.any_eq_true]
        rintro ⟨q, hq, hqk⟩
        exact hnd.1 (by
          have : q.1 = k := by simpa using hqk
          simpa [hp, this] using List.mem_map_of_mem Prod.fst hq)
      simpa [countKey, List.filter_cons, hp] using countKey_of_not_any k m hrest
    · have hpk : (p.1 == k) = false := beq_eq_false_iff_ne.mpr hp
      simp only [List.any_cons, hpk, Bool.false_or] at h
      simpa [countKey, List.filter_cons, hp] using
        countKey_eq_one_of_present k m hnd.2 h

theorem countKey_setKV {α : Type} (m : List (String × α)) (k : String) (v : α)
    (hnd : (m.map Prod.fst).Nodup) : countKey (setKV m k v) k = 1 := by
  unfold setKV
  split
  next h => rw [countKey_map_replace]; exact countKey_eq_one_of_present k m hnd h
  next h =>
    have h0 := countKey_of_not_any k m (Bool.eq_false_iff.mpr h)
    simp only [countKey, List.filter_append] at h0 ⊢
    simp [List.filter_cons, h0]

/-! ## Scheduler lemmas -/

theorem preCandidates_subset (pls : List Playlist) (history : List Nat) (a : String)
    (pool : List Nat) : preCandidates pls history a pool ⊆ pool := by
  unfold preCandidates
  split
  · exact List.filter_subset' pool
  · exact List.filter_subset' pool

theorem candidatesFor_subset (pls : List Playlist) (history : List Nat) (a : String)
    (pool : List Nat) : candidatesFor pls history a pool ⊆ pool := by
  unfold candidatesFor
  split
  · exact fun i hi => hi
  · exact preCandidates_subset pls history a pool

theorem candidatesFor_ne_nil (pls : List Playlist) (history : List Nat) (a : String)
    (pool : List Nat) (h : pool ≠ []) : candidatesFor pls history a pool ≠ [] := by
  unfold candidatesFor
  split
  next => exact h
  next hne => exact List.isEmpty_eq_false.mp (Bool.eq_false_iff.mpr hne)

theorem preCandidates_no_self (pls : List Playlist) (history : List Nat) (a : String)
    (pool : List Nat) : ∀ i ∈ preCandidates pls history a pool, ownerAt pls i ≠ a := by
  unfold preCandidates
  intro i hi
  split at hi
  · simp only [tier2] at hi
    have := (List.mem_filter.mp hi).2
    simpa using this
  · simp only [tier1] at hi
    have := (List.mem_filter.mp hi).2
    have h1 : (ownerAt pls i != a) = true := ((Bool.and_eq_true _ _).mp this).1
    simpa using h1

theorem candidatesFor_no_self (pls : List Playlist) (history : List Nat) (a : String)
    (pool : List Nat) (hfb : fallbackFor pls history a pool = false) :
    ∀ i ∈ candidatesFor pls history a pool, ownerAt pls i ≠ a := by
  unfold fallbackFor at hfb
  unfold candidatesFor
  rw [hfb]
  intro i hi
  simp only [Bool.false_eq_true, if_false] at hi
  exact preCandidates_no_self pls history a pool i hi

theorem candidatesFor_pick_mem (pls : List Playlist) (history : List Nat) (a : String)
    (pool : List Nat) (h : pool ≠ []) (n : Nat) :
    ∃ ch, (candidatesFor pls history a pool).get?
        (n % (candidatesFor pls history a pool).length) = some ch ∧
      ch ∈ candidatesFor pls history a pool := by
  set c := candidatesFor pls history a pool with hc
  have hcne : c ≠ [] := candidatesFor_ne_nil pls history a pool h
  have hlen : 0 < c.length := List.length_pos.mpr hcne
  have hlt : n % c.length < c.length := Nat.mod_lt n hlen
  exact ⟨c.get ⟨n % c.length, hlt⟩, List.get?_eq_get hlt, List.get_mem c _ hlt⟩

theorem assignLoop_spec (pls : List Playlist) (pick : Nat → Nat) :
    ∀ (order : List String) (pool : List Nat) (hist : List (String × List Nat)) (step : Nat),
      pool.Nodup → order.length ≤ pool.length →
      (assignLoop pls pick order pool hist step).1.map Prod.fst = order ∧
      ((assignLoop pls pick order pool hist step).1.map Prod.snd).Nodup ∧
      ∀ v ∈ (assignLoop pls pick order pool hist step).1.map Prod.snd, v ∈ pool := by
  intro order
  induction order with
  | nil => intro pool hist step _ _; exact ⟨rfl, List.nodup_nil, by simp [assignLoop]⟩
  | cons a rest ih =>
    intro pool hist step hnd hlen
    have hpool : pool ≠ [] := by
      intro he; rw [he] at hlen; simp at hlen
    obtain ⟨ch, hch, hmem⟩ :=
      candidatesFor_pick_mem pls ((List.lookup a hist).getD []) a pool hpool (pick step)
    have hchpool : ch ∈ pool := candidatesFor_subset pls _ a pool hmem
    have hnd' : (pool.erase ch).Nodup := hnd.erase ch
    have hlen' : rest.length ≤ (pool.erase ch).length := by
      rw [List.length_erase_of_mem hchpool]
      simpa using Nat.le_sub_one_of_lt (Nat.lt_of_lt_of_le (by simp) hlen)
    obtain ⟨ihfst, ihnd, ihsub⟩ :=
      ih (pool.erase ch) (setKV hist a (((List.lookup a hist).getD []) ++ [ch])) (step + 1)
        hnd' hlen'
    have hres : assignLoop pls pick (a :: rest) pool hist step =
        ((a, ch) :: (assignLoop pls pick rest (pool.erase ch)
            (setKV hist a (((List.lookup a hist).getD []) ++ [ch])) (step + 1)).1,
         (assignLoop pls pick rest (pool.erase ch)
            (setKV hist a (((List.lookup a hist).getD []) ++ [ch])) (step + 1)).2.1,
         (assignLoop pls pick rest (pool.erase ch)
            (setKV hist a (((List.lookup a hist).getD []) ++ [ch])) (step + 1)).2.2 ||
           fallbackFor pls ((List.lookup a hist).getD []) a pool) := by
      rw [assignLoop, hch]
    refine ⟨?_, ?_, ?_⟩
    · rw [hres]; simpa using ihfst
    · rw [hres]
      simp only [List.map_cons, List.nodup_cons]
      refine ⟨fun hmem' => ?_, ihnd⟩
      have := ihsub ch hmem'
      exact absurd (hnd.mem_erase_iff.mp this).1 (by simp)
    · rw [hres]
      intro v hv
      simp only [List.map_cons, List.mem_cons] at hv
      rcases hv with rfl | hv
      · exact hchpool
      · exact List.erase_subset ch pool (ihsub v hv)

theorem assignLoop_no_self (pls : List Playlist) (pick : Nat → Nat) :
    ∀ (order : List String) (pool : List Nat) (hist : List (String × List Nat)) (step : Nat),
      (assignLoop pls pick order pool hist step).2.2 = false →
      ∀ p ∈ (assignLoop pls pick order pool hist step).1, ownerAt pls p.2 ≠ p.1 := by
  intro order
  induction order with
  | nil => intro pool hist step _ p hp; simp [assignLoop] at hp
  | cons a rest ih =>
    intro pool hist step hflag p hp
    rcases hch : (candidatesFor pls ((List.lookup a hist).getD []) a pool).get?
        (pick step % (candidatesFor pls ((List.lookup a hist).getD []) a pool).length) with
      _ | ch
    · have hres : assignLoop pls pick (a :: rest) pool hist step =
          ((assignLoop pls pick rest pool hist (step + 1)).1,
           (assignLoop pls pick rest pool hist (step + 1)).2.1,
           (assignLoop pls pick rest pool hist (step + 1)).2.2 ||
             fallbackFor pls ((List.lookup a hist).getD []) a pool) := by
        rw [assignLoop, hch]
      rw [hres] at hflag hp
      simp only [Bool.or_eq_false_iff] at hflag
      exact ih pool hist (step + 1) hflag.1 p hp
    · have hres : assignLoop pls pick (a :: rest) pool hist step =
          ((a, ch) :: (assignLoop pls pick rest (pool.erase ch)
              (setKV hist a (((List.lookup a hist).getD []) ++ [ch])) (step + 1)).1,
           (assignLoop pls pick rest (pool.erase ch)
              (setKV hist a (((List.lookup a hist).getD []) ++ [ch])) (step + 1)).2.1,
           (assignLoop pls pick rest (pool.erase ch)
              (setKV hist a (((List.lookup a hist).getD []) ++ [ch])) (step + 1)).2.2 ||
             fallbackFor pls ((List.lookup a hist).getD []) a pool) := by
        rw [assignLoop, hch]
      rw [hres] at hflag hp
      simp only [Bool.or_eq_false_iff] at hflag
      simp only [List.mem_cons] at hp
      rcases hp with rfl | hp
      · exact candidatesFor_no_self pls _ a pool hflag.2 ch (List.get?_mem hch)
      · exact ih (pool.erase ch) _ (step + 1) hflag.1 p hp

/-! ## Claim theorems -/

set_option maxRecDepth 8192 in
/-- Claim C1 (code bug).  The claim says that once every player has submitted
for a round, advancement fires exactly once for that round.  In the code the
next-round branch of `advanceAfterRound` crashes on the undefined variable
`gameCode` (part_000 line 351) after committing the new round but before the
timer that would reset `_advancing`, so `_advancing` stays `true` forever.
This trace shows it: in a two-player three-song session, the round-1
barrier completes and advancement fires once (`advancedFrom = [1]`, one
crash), the round-2 barrier also completes (`barrierCompletions = [1, 2]`)
and its deferred advancement runs, but it is blocked by the stale
`_advancing` guard: the session stays in `elimination_round_2` forever, so
round 2's advancement fires zero times, not exactly once. -/
theorem C1_round2_advancement_never_fires :
    (runTrace ["A", "B"] (fun _ => 0) simInit traceC1).barrierCompletions = [1, 2] ∧
    (runTrace ["A", "B"] (fun _ => 0) simInit traceC1).advancedFrom = [1] ∧
    (runTrace ["A", "B"] (fun _ => 0) simInit traceC1).game.currentRound = 2 ∧
    (runTrace ["A", "B"] (fun _ => 0) simInit traceC1).game.gamePhase = "elimination_round_2" ∧
    (runTrace ["A", "B"] (fun _ => 0) simInit traceC1).game.advancing = true ∧
    (runTrace ["A", "B"] (fun _ => 0) simInit traceC1).pendingAdvance = 0 ∧
    (runTrace ["A", "B"] (fun _ => 0) simInit traceC1).crashes = 1 := by
  decide

/-- Claim C2 (counterexample).  A session with 3 players and 3 playlists
(non-degenerate by the claim's own condition) in which the scheduler assigns
player C their own playlist: A picks B's playlist, B picks A's, and the only
remaining pool entry for C is C's own playlist, so the fallback tier fires and
C reviews playlist 2, owned by C.  The order used is a legitimate shuffle
(a permutation of the alias list) and every pick is from the candidate set. -/
theorem C2_counterexample :
    2 ≤ gameCx.players.length ∧ 2 ≤ gameCx.playlists.length ∧
    (["A", "B", "C"] : List String).Perm (gameCx.players.map Player.aliasName) ∧
    List.lookup "C" (assignPlaylistsToPlayers gameCx ["A", "B", "C"] (fun _ => 0)).1 = some 2 ∧
    ownerAt gameCx.playlists 2 = "C" :=
  ⟨by decide, by decide, List.Perm.refl _, rfl, rfl⟩

/-- Claim C2 (amended).  Whenever a scheduler run never reaches the warned
fallback tier (the only path that can hand a player their own playlist), the
produced assignment maps no player to the playlist they own.  The fallback is
reachable even in non-degenerate sessions, as `C2_counterexample` shows. -/
theorem C2_no_self_unless_fallback (game : Game) (order : List String) (pick : Nat → Nat)
    (hfb : assignmentUsedFallback game order pick = false) :
    ∀ p ∈ (assignPlaylistsToPlayers game order pick).1, ownerAt game.playlists p.2 ≠ p.1 := by
  simp only [assignmentUsedFallback] at hfb
  intro p hp
  simp only [assignPlaylistsToPlayers] at hp
  exact assignLoop_no_self game.playlists pick order (List.range game.playlists.length)
    game.assignmentHistory 0 hfb p hp

/-- Witness for `C2_no_self_unless_fallback`: a two-player session whose run
uses no fallback; both produced pairs avoid the player's own playlist. -/
theorem C2_no_self_unless_fallback_witness :
    ownerAt gameCx2.playlists 1 ≠ "A" ∧ ownerAt gameCx2.playlists 0 ≠ "B" := by
  have h := C2_no_self_unless_fallback gameCx2 ["A", "B"] (fun _ => 0) rfl
  exact ⟨h ("A", 1) (by decide), h ("B", 0) (by decide)⟩

/-- Claim C3 (confirmed).  For a session in an elimination phase — distinct
aliases, as many playlists as players — every scheduler run (any shuffle
order, any random picks) produces an assignment whose keys are exactly the
player aliases, one entry each, and whose values are exactly the playlist
indices `0 .. playlists.length - 1`, one entry each: a bijection between
players and playlist indices. -/
theorem C3_assignment_bijection (game : Game) (order : List String) (pick : Nat → Nat)
    (hperm : order.Perm (game.players.map Player.aliasName))
    (hnd : (game.players.map Player.aliasName).Nodup)
    (hlen : game.players.length = game.playlists.length) :
    ((assignPlaylistsToPlayers game order pick).1.map Prod.fst).Perm
      (game.players.map Player.aliasName) ∧
    (∀ a ∈ game.players.map Player.aliasName,
      ((assignPlaylistsToPlayers game order pick).1.map Prod.fst).count a = 1) ∧
    ((assignPlaylistsToPlayers game order pick).1.map Prod.snd).Perm
      (List.range game.playlists.length) ∧
    (∀ i ∈ List.range game.playlists.length,
      ((assignPlaylistsToPlayers game order pick).1.map Prod.snd).count i = 1) := by
  have hordlen : order.length = game.playlists.length := by
    rw [hperm.length_eq, List.length_map, hlen]
  obtain ⟨hfst, hndv, hsub⟩ :=
    assignLoop_spec game.playlists pick order (List.range game.playlists.length)
      game.assignmentHistory 0 (List.nodup_range _)
      (by rw [hordlen, List.length_range])
  simp only [assignPlaylistsToPlayers]
  have hkeys : ((assignLoop game.playlists pick order (List.range game.playlists.length)
      game.assignmentHistory 0).1.map Prod.fst).Perm (game.players.map Player.aliasName) := by
    rw [hfst]; exact hperm
  have hvlen : ((assignLoop game.playlists pick order (List.range game.playlists.length)
      game.assignmentHistory 0).1.map Prod.snd).length = game.playlists.length := by
    rw [List.length_map, ← List.length_map _ Prod.fst, hfst, hordlen]
  have hvperm : ((assignLoop game.playlists pick order (List.range game.playlists.length)
      game.assignmentHistory 0).1.map Prod.snd).Perm (List.range game.playlists.length) :=
    (List.subperm_of_subset hndv (fun v hv => hsub v hv)).perm_of_length_le
      (by rw [hvlen, List.length_range])
  refine ⟨hkeys, ?_, hvperm, ?_⟩
  · intro a ha
    rw [hkeys.count_eq]
    exact List.count_eq_one_of_mem hnd ha
  · intro i hi
    rw [hvperm.count_eq]
    exact List.count_eq_one_of_mem (List.nodup_range _) hi

/-- Witness for `C3_assignment_bijection`: the two-player session, shuffle
order `["B", "A"]`, constant picks. -/
theorem C3_assignment_bijection_witness :
    ((assignPlaylistsToPlayers gameCx2 ["B", "A"] (fun _ => 0)).1.map Prod.fst).Perm
      (gameCx2.players.map Player.aliasName) ∧
    ((assignPlaylistsToPlayers gameCx2 ["B", "A"] (fun _ => 0)).1.map Prod.fst).count "A" = 1 ∧
    ((assignPlaylistsToPlayers gameCx2 ["B", "A"] (fun _ => 0)).1.map Prod.snd).Perm
      (List.range gameCx2.playlists.length) ∧
    ((assignPlaylistsToPlayers gameCx2 ["B", "A"] (fun _ => 0)).1.map Prod.snd).count 0 = 1 := by
  have h := C3_assignment_bijection gameCx2 ["B", "A"] (fun _ => 0)
    (by decide) (by decide) (by decide)
  exact ⟨h.1, h.2.1 "A" (by decide), h.2.2.1, h.2.2.2 0 (by decide)⟩

set_option maxRecDepth 8192 in
/-- Claim C4 (code bug).  The claim says at most one elimination per player
per round is applied.  `submitElimination` never consults the player's
`hasSubmittedElimination` flag before applying, so a second submission from
the same player in the same round, aimed at another not-yet-eliminated song
of their assigned playlist, succeeds and eliminates a second song: here A
eliminates songs 0 and 1 of playlist 1 in round 1, and afterwards that
playlist carries two eliminated songs. -/
theorem C4_second_elimination_applied :
    (submitElimination game0 "s1" "A" 1 0 "").2 = SubmitOutcome.okSilent ∧
    (submitElimination (submitElimination game0 "s1" "A" 1 0 "").1 "s1" "A" 1 1 "").2 =
      SubmitOutcome.okSilent ∧
    ((submitElimination (submitElimination game0 "s1" "A" 1 0 "").1 "s1" "A" 1 1 "").1.playlists.get?
        1).map (fun pl => (pl.songs.filter (fun s => s.eliminated)).length) = some 2 := by
  decide

theorem getOrUpdatePlayer_playlists (g : Game) (sid a : String) (ci : Bool) :
    (getOrUpdatePlayer g sid a ci).1.playlists = g.playlists := by
  unfold getOrUpdatePlayer
  split
  · rfl
  · split
    · split
      · rfl
      · split
        · rfl
        · rfl
    · rfl

/-- Claim C5 (confirmed).  Any `submitElimination` call that targets a song
whose `eliminated` flag is already `true` fails with an error reported to the
caller, and the playlists (songs and elimination logs) are unchanged: every
check of the handler runs before any mutation of the playlist, and the
`Song already eliminated` check comes before the elimination is applied. -/
theorem C5_already_eliminated_rejected (game : Game) (sid a : String) (pi si : Nat)
    (c : String) (pl : Playlist) (s : Song)
    (hpl : game.playlists.get? pi = some pl) (hs : pl.songs.get? si = some s)
    (helim : s.eliminated = true) :
    (∃ msg, (submitElimination game sid a pi si c).2 = SubmitOutcome.errorOut msg) ∧
    (submitElimination game sid a pi si c).1.playlists = game.playlists := by
  unfold submitElimination
  split
  · exact ⟨⟨_, rfl⟩, rfl⟩
  · rcases hgp : getOrUpdatePlayer game sid a false with ⟨g1, po⟩
    have hg1 : g1.playlists = game.playlists := by
      have h := getOrUpdatePlayer_playlists game sid a false
      rw [hgp] at h
      exact h
    cases po with
    | none => exact ⟨⟨_, rfl⟩, hg1⟩
    | some pIdx =>
      dsimp only
      split
      · exact ⟨⟨_, rfl⟩, hg1⟩
      · rw [hg1, hpl]
        dsimp only
        split
        · exact ⟨⟨_, rfl⟩, hg1⟩
        · split
          · exact ⟨⟨_, rfl⟩, hg1⟩
          · rw [hs]
            dsimp only
            rw [if_pos helim]
            exact ⟨⟨_, rfl⟩, hg1⟩

/-- Witness for `C5_already_eliminated_rejected`: in `gameC6`, song 0 of
playlist 0 is already eliminated; a new attempt against it fails and leaves
the playlists untouched. -/
theorem C5_already_eliminated_rejected_witness :
    (∃ msg, (submitElimination gameC6 "s2" "B" 0 0 "again").2 = SubmitOutcome.errorOut msg) ∧
    (submitElimination gameC6 "s2" "B" 0 0 "again").1.playlists = gameC6.playlists :=
  C5_already_eliminated_rejected gameC6 "s2" "B" 0 0 "again"
    (⟨"A", [elimSong "a1" "a1" 1 "B", mkSong "a2" "a2"], []⟩) (elimSong "a1" "a1" 1 "B")
    rfl rfl rfl

set_option maxRecDepth 8192 in
/-- Claim C6 (counterexample).  A session in which playlist 1 lost its last
song in the final round: the barrier completes, `advanceAfterRound` moves to
`final_mix` (`currentRound ≥ maxRounds`), and the built final mix falls back
to the last song of playlist 1 — an entry whose song has `eliminated = true`,
contradicting the claim that every entry's song is non-eliminated at
construction time. -/
theorem C6_counterexample :
    (advanceAfterRound gameC6 ["A", "B"] (fun _ => 0)).game.gamePhase = "final_mix" ∧
    ((advanceAfterRound gameC6 ["A", "B"] (fun _ => 0)).game.finalMix).map
      (fun l => l.map (fun e => e.song.eliminated)) = some [false, true] := by
  decide

theorem buildFinalMixAux_spec (idx : Nat) (pls : List Playlist)
    (h : ∀ pl ∈ pls, pl.songs.any (fun s => !s.eliminated) = true) :
    (buildFinalMixAux idx pls).length = pls.length ∧
    ∀ e ∈ buildFinalMixAux idx pls, e.song.eliminated = false := by
  induction pls generalizing idx with
  | nil => exact ⟨rfl, by simp [buildFinalMixAux]⟩
  | cons pl rest ih =>
    have hhead := h pl (List.mem_cons_self pl rest)
    obtain ⟨ihlen, ihelim⟩ := ih (idx + 1) (fun q hq => h q (List.mem_cons_of_mem pl hq))
    rcases hf : pl.songs.find? (fun s => !s.eliminated) with _ | r
    · obtain ⟨x, hx, hxe⟩ := List.any_eq_true.mp hhead
      exact absurd hxe (by simpa using List.find?_eq_none.mp hf x hx)
    · have hr : r.eliminated = false := by
        have := List.find?_some hf
        simpa using this
      have hres : buildFinalMixAux idx (pl :: rest) =
          ⟨idx, originAliasOf idx pl, safeSongOf idx r⟩ :: buildFinalMixAux (idx + 1) rest := by
        rw [buildFinalMixAux, hf]
      rw [hres]
      refine ⟨by simpa using ihlen, ?_⟩
      intro e he
      rcases List.mem_cons.mp he with rfl | he'
      · simpa [safeSongOf] using hr
      · exact ihelim e he'

/-- Claim C6 (amended).  Whenever every playlist still holds at least one
non-eliminated song at construction time, the final mix has exactly one entry
per playlist and every entry's song has `eliminated = false`.  When a playlist
has no surviving song the defensive fallback of line 239 contributes its last
(eliminated) song instead (`C6_counterexample`), and a playlist with no songs
at all contributes no entry. -/
theorem C6_final_mix_complete (game : Game)
    (h : ∀ pl ∈ game.playlists, pl.songs.any (fun s => !s.eliminated) = true) :
    (buildFinalMix game.playlists).length = game.playlists.length ∧
    ∀ e ∈ buildFinalMix game.playlists, e.song.eliminated = false :=
  buildFinalMixAux_spec 0 game.playlists h

/-- Witness for `C6_final_mix_complete`: both playlists of `gameV` keep one
survivor; the final mix has one entry per playlist and both entries'
songs are non-eliminated. -/
theorem C6_final_mix_complete_witness :
    (buildFinalMix gameV.playlists).length = gameV.playlists.length ∧
    (buildFinalMix gameV.playlists).map (fun e => e.song.eliminated) = [false, false] := by
  have h := C6_final_mix_complete gameV (by decide)
  exact ⟨h.1, by decide⟩

/-- Claim C7 (confirmed).  When the barrier completes and the advancement
routine runs (guard clear, in an elimination round, `maxRounds` as computed at
phase entry — song counts never change in part_000, so the current longest
playlist length is the initial one), the session moves to `final_mix` exactly
when every playlist has one non-eliminated song left or
`currentRound ≥ maxRounds`; otherwise it moves to `elimination_round_(N+1)`
with `currentRound` bumped by one and a freshly computed assignment. -/
theorem C7_transition_condition (game : Game) (order : List String) (pick : Nat → Nat)
    (hadv : game.advancing = false) (hr : 1 ≤ game.currentRound)
    (hmr : game.maxRounds = computeMaxRounds game) :
    ((advanceAfterRound game order pick).game.gamePhase = "final_mix" ↔
      (allPlaylistsHaveOneRemaining game = true ∨ game.maxRounds ≤ game.currentRound)) ∧
    ((allPlaylistsHaveOneRemaining game = true ∨ game.maxRounds ≤ game.currentRound) →
      (advanceAfterRound game order pick).game.finalMix = some (buildFinalMix game.playlists) ∧
      (advanceAfterRound game order pick).game.currentRound = game.currentRound) ∧
    (¬ (allPlaylistsHaveOneRemaining game = true ∨ game.maxRounds ≤ game.currentRound) →
      (advanceAfterRound game order pick).game.currentRound = game.currentRound + 1 ∧
      (advanceAfterRound game order pick).game.gamePhase =
        "elimination_round_" ++ toString (game.currentRound + 1) ∧
      (advanceAfterRound game order pick).game.assignedPlaylists =
        (assignLoop game.playlists pick order (List.range game.playlists.length)
          game.assignmentHistory 0).1) := by
  have hphase : ("elimination_round_" ++ toString (game.currentRound + 1)) ≠ "final_mix" := by
    intro he
    have hlen := congrArg String.length he
    rw [String.length_append] at hlen
    have h1 : ("elimination_round_" : String).length = 18 := rfl
    have h2 : ("final_mix" : String).length = 9 := rfl
    omega
  have hmaxR : (if game.maxRounds ≠ 0 then game.maxRounds else computeMaxRounds game) =
      game.maxRounds := by
    split
    · rfl
    · exact hmr.symm
  have hrne : (game.currentRound != 0) = true := by
    simp only [bne_iff_ne, ne_eq]
    omega
  by_cases hfin : allPlaylistsHaveOneRemaining game = true ∨ game.maxRounds ≤ game.currentRound
  · have hcond : advanceIsFinal game = true := by
      unfold advanceIsFinal
      rw [hmaxR, hrne]
      rcases hfin with hf | hf
      · simp [hf]
      · simp [hf]
    simp only [advanceAfterRound]
    rw [if_neg (by simp [hadv])]
    rw [if_pos hcond]
    refine ⟨by simpa using hfin, fun _ => ⟨rfl, rfl⟩, fun hn => absurd hfin hn⟩
  · have hcond : advanceIsFinal game = false := by
      unfold advanceIsFinal
      rw [hmaxR, hrne]
      push_neg at hfin
      simp only [Bool.or_eq_false_iff, Bool.and_eq_false_iff]
      exact ⟨Bool.eq_false_iff.mpr hfin.1, Or.inr (by simpa using hfin.2)⟩
    simp only [advanceAfterRound]
    rw [if_neg (by simp [hadv])]
    rw [if_neg (by simp [hcond])]
    have hrr : (if game.currentRound = 0 then 1 else game.currentRound) = game.currentRound := by
      split
      · omega
      · rfl
    rw [hrr]
    refine ⟨⟨fun he => absurd he hphase, fun hy => absurd hy hfin⟩,
      fun hy => absurd hy hfin, fun _ => ⟨rfl, rfl, rfl⟩⟩

/-- Witness for `C7_transition_condition`: `game0` sits in round 1 of 2 with
no converged playlists, so the advancement moves it to `elimination_round_2`
with a recomputed assignment. -/
theorem C7_transition_condition_witness :
    ((advanceAfterRound game0 ["A", "B"] (fun _ => 0)).game.gamePhase = "final_mix" ↔
      (allPlaylistsHaveOneRemaining game0 = true ∨ game0.maxRounds ≤ game0.currentRound)) ∧
    (advanceAfterRound game0 ["A", "B"] (fun _ => 0)).game.currentRound =
      game0.currentRound + 1 ∧
    (advanceAfterRound game0 ["A", "B"] (fun _ => 0)).game.gamePhase =
      "elimination_round_" ++ toString (game0.currentRound + 1) ∧
    (advanceAfterRound game0 ["A", "B"] (fun _ => 0)).game.assignedPlaylists =
      (assignLoop game0.playlists (fun _ => 0) ["A", "B"] (List.range game0.playlists.length)
        game0.assignmentHistory 0).1 := by
  have h := C7_transition_condition game0 ["A", "B"] (fun _ => 0) rfl (by decide) (by decide)
  exact ⟨h.1, h.2.2 (by decide)⟩

/-- The per-playlist song counts of a session — the quantity claim C8 says no
operation ever changes. -/
def songLengths (g : Game) : List Nat :=
  g.playlists.map (fun pl => pl.songs.length)

theorem map_set_of_get? {α β : Type} (f : α → β) :
    ∀ (l : List α) (i : Nat) (a a' : α), l.get? i = some a → f a' = f a →
      (l.set i a').map f = l.map f
  | [], i, a, a', h, _ => by simp at h
  | x :: l, 0, a, a', h, hf => by
    simp only [List.get?] at h
    cases h
    simp [List.set, hf]
  | x :: l, i + 1, a, a', h, hf => by
    simp only [List.get?] at h
    simp [List.set, map_set_of_get? f l i a a' h hf]

theorem submitElimination_songLengths (g : Game) (sid a : String) (pi si : Nat) (c : String) :
    songLengths (submitElimination g sid a pi si c).1 = songLengths g := by
  unfold submitElimination
  split
  · rfl
  · rcases hgp : getOrUpdatePlayer g sid a false with ⟨g1, po⟩
    have hg1 : g1.playlists = g.playlists := by
      have h := getOrUpdatePlayer_playlists g sid a false
      rw [hgp] at h
      exact h
    have hsl : songLengths g1 = songLengths g := by
      simp [songLengths, hg1]
    cases po with
    | none => exact hsl
    | some pIdx =>
      dsimp only
      split
      · exact hsl
      · rcases hpl : g1.playlists.get? pi with _ | pl
        · exact hsl
        · dsimp only
          split
          · exact hsl
          · split
            · exact hsl
            · rcases hsg : pl.songs.get? si with _ | song
              · exact hsl
              · dsimp only
                split
                · exact hsl
                · have hset : (g1.playlists.set pi
                      { pl with
                        songs := pl.songs.set si
                          { song with
                            eliminated := true
                            eliminatedRound := some g1.currentRound
                            eliminatedBy := some a
                            comment := some c }
                        eliminationLog := pl.eliminationLog ++
                          [⟨⟨song.artist, song.title, song.link⟩, g1.currentRound, a, c⟩]
                      }).map (fun q => q.songs.length) =
                      g.playlists.map (fun q => q.songs.length) := by
                    rw [← hg1]
                    exact map_set_of_get? _ g1.playlists pi pl _ hpl (by simp)
                  split
                  · split
                    · simpa [songLengths] using hset
                    · simpa [songLengths] using hset
                  · simpa [songLengths] using hset

theorem advanceAfterRound_songLengths (g : Game) (ord : List String) (pick : Nat → Nat) :
    songLengths (advanceAfterRound g ord pick).game = songLengths g := by
  simp only [advanceAfterRound]
  split
  · rfl
  · split
    · show (g.playlists.map normalizeEliminationLog).map (fun pl => pl.songs.length) =
        g.playlists.map (fun pl => pl.songs.length)
      rw [List.map_map]
      rfl
    · show (g.playlists.map normalizeEliminationLog).map (fun pl => pl.songs.length) =
        g.playlists.map (fun pl => pl.songs.length)
      rw [List.map_map]
      rfl

/-- Claim C8 (amended, part_000 side).  In the canonical coordinator no
operation changes any playlist's song count: an elimination only sets the
song's flags in place and appends a log record, and the phase transitions
only normalize logs.  (The MVP draft violates the claim —
`C8_counterexample`.) -/
theorem C8_song_counts_preserved :
    (∀ (g : Game) (sid a : String) (pi si : Nat) (c : String),
      songLengths (submitElimination g sid a pi si c).1 = songLengths g) ∧
    (∀ (g : Game) (ord : List String) (pick : Nat → Nat),
      songLengths (advanceAfterRound g ord pick).game = songLengths g) ∧
    (∀ (g : Game) (sid a : String) (ci : Bool),
      songLengths (getOrUpdatePlayer g sid a ci).1 = songLengths g) ∧
    (∀ (g : Game) (sid a : String) (ch : Chosen),
      songLengths (finalVote g sid a ch).1 = songLengths g) ∧
    (∀ (g : Game) (sid a pw : String),
      songLengths (joinGame g sid a pw).1 = songLengths g) := by
  refine ⟨submitElimination_songLengths, advanceAfterRound_songLengths, ?_, ?_, ?_⟩
  · intro g sid a ci
    simp [songLengths, getOrUpdatePlayer_playlists]
  · intro g sid a ch
    unfold finalVote
    split
    · rfl
    · rcases hgp : getOrUpdatePlayer g sid a false with ⟨g1, po⟩
      have hg1 : g1.playlists = g.playlists := by
        have h := getOrUpdatePlayer_playlists g sid a false
        rw [hgp] at h
        exact h
      have hsl : songLengths g1 = songLengths g := by simp [songLengths, hg1]
      cases po with
      | none => exact hsl
      | some i =>
        dsimp only
        split
        · exact hsl
        · exact hsl
  · intro g sid a pw
    simp only [joinGame]
    split
    · rfl
    · split
      · rfl
      · rfl

/-- Claim C8 (counterexample).  The MVP draft's `eliminateSong`
(backend/index.js lines 146-153) splices the targeted song out of the array:
a playlist of 2 songs has only 1 left after the call, so playlist length is
not immutable across the repository's elimination handlers. -/
theorem C8_counterexample :
    ((bGame8.playlists.get? 0).map (fun pl => pl.songs.length)) = some 2 ∧
    (((backendEliminateSong bGame8 "B" 0 0 "gone").playlists.get? 0).map
      (fun pl => pl.songs.length)) = some 1 := by
  decide

theorem getOrUpdatePlayer_of_socket (g : Game) (sid a : String) (ci : Bool)
    (h : g.players.any (fun p => p.id == sid) = true) :
    getOrUpdatePlayer g sid a ci = (g, some (g.players.findIdx (fun p => p.id == sid))) := by
  unfold getOrUpdatePlayer
  rw [List.findIdx?_eq_some_of_exists (List.any_eq_true.mp h)]

/-- Claim C9 (amended, part_000 side).  For a recognized player (here: one
whose live socket is bound) voting in the final-mix phase, the vote write is
an insert-or-replace on the alias-keyed votes object: afterwards the votes
mapping holds exactly one entry for that alias, equal to the last submitted
choice, and other aliases' entries are untouched.  (The MVP draft appends
votes to an array instead — `C9_counterexample`.) -/
theorem C9_vote_overwrites (game : Game) (sid a : String) (ch : Chosen)
    (hph : game.gamePhase = "final_mix")
    (hp : game.players.any (fun p => p.id == sid) = true)
    (hnd : (game.votes.map Prod.fst).Nodup) :
    countKey (finalVote game sid a ch).1.votes a = 1 ∧
    List.lookup a (finalVote game sid a ch).1.votes = some ch ∧
    ∀ b, b ≠ a → List.lookup b (finalVote game sid a ch).1.votes = List.lookup b game.votes := by
  unfold finalVote
  rw [if_neg (by simp [hph])]
  rw [getOrUpdatePlayer_of_socket game sid a false hp]
  dsimp only
  split
  · exact ⟨countKey_setKV game.votes a ch hnd, lookup_setKV_self game.votes a ch,
      fun b hb => lookup_setKV_ne game.votes a b ch hb⟩
  · exact ⟨countKey_setKV game.votes a ch hnd, lookup_setKV_self game.votes a ch,
      fun b hb => lookup_setKV_ne game.votes a b ch hb⟩

/-- Witness for `C9_vote_overwrites`: player A votes in `gameV`, where a vote
by B and no vote by A exist; A's entry is created once, and B's is kept. -/
theorem C9_vote_overwrites_witness :
    countKey (finalVote gameV "s1" "A" (Chosen.raw "x")).1.votes "A" = 1 ∧
    List.lookup "A" (finalVote gameV "s1" "A" (Chosen.raw "x")).1.votes =
      some (Chosen.raw "x") ∧
    List.lookup "B" (finalVote gameV "s1" "A" (Chosen.raw "x")).1.votes =
      List.lookup "B" gameV.votes := by
  have h := C9_vote_overwrites gameV "s1" "A" (Chosen.raw "x") rfl (by decide) (by decide)
  exact ⟨h.1, h.2.1, h.2.2 "B" (by decide)⟩

/-- Claim C9 (counterexample).  The MVP draft's `finalVote`
(backend/index.js lines 242-247) pushes every vote onto an array: after two
votes by alias A the votes store holds two entries for A instead of one
overwritten entry. -/
theorem C9_counterexample :
    (backendFinalVote (backendFinalVote (⟨[], []⟩ : BGame) "A" "x") "A" "y").votes =
      ([⟨"A", "x"⟩, ⟨"A", "y"⟩] : List BVote) ∧
    ((backendFinalVote (backendFinalVote (⟨[], []⟩ : BGame) "A" "x") "A" "y").votes.filter
      (fun v => v.aliasName == "A")).length = 2 := by
  decide

/-- Claim C10 (confirmed).  `joinGame` pushes the new player record before
running the alias-conflict check, so a join with a correct password but an
alias already bound to a different connection is rejected with
`Alias already taken` while the players list has still grown by one — the
inflated count then feeds every later `players.length`/`players.every`
completion check. -/
theorem C10_join_rejection_grows_players (game : Game) (sid a pw : String)
    (hpw : game.password = "" ∨ game.password = pw)
    (hconf : ∃ p ∈ game.players, p.aliasName = a ∧ p.id ≠ sid) :
    (joinGame game sid a pw).2.1 = some "Alias already taken" ∧
    (joinGame game sid a pw).1.players.length = game.players.length + 1 ∧
    (joinGame game sid a pw).1.players = game.players ++ [⟨sid, a, none, false⟩] := by
  obtain ⟨p, hpmem, ha, hid⟩ := hconf
  have hpw' : ¬ (game.password ≠ "" ∧ game.password ≠ pw) := by
    rcases hpw with h | h <;> simp [h]
  have hany : ((game.players ++ [(⟨sid, a, none, false⟩ : Player)]).any
      (fun q => q.aliasName == a && q.id != sid)) = true := by
    rw [List.any_eq_true]
    exact ⟨p, List.mem_append_left _ hpmem, by simp [ha, hid]⟩
  unfold joinGame
  rw [if_neg hpw']
  dsimp only
  rw [if_pos hany]
  simp

/-- Witness for `C10_join_rejection_grows_players`: socket `s9` joins `game0`
claiming alias `A`, which is bound to socket `s1`; the join errors but the
players list grows from 2 to 3. -/
theorem C10_join_rejection_grows_players_witness :
    (joinGame game0 "s9" "A" "").2.1 = some "Alias already taken" ∧
    (joinGame game0 "s9" "A" "").1.players.length = game0.players.length + 1 ∧
    (joinGame game0 "s9" "A" "").1.players = game0.players ++ [⟨"s9", "A", none, false⟩] :=
  C10_join_rejection_grows_players game0 "s9" "A" "" (Or.inl rfl)
    ⟨⟨"s1", "A", none, false⟩, by decide, rfl, by decide⟩

end MusicMadness
